import Mathlib

/-!
# Verification of the Monallion backend core (src/server.js)

Shallow embedding of the backend logic of the Monallion trivia-game server:
the winnings ledger (Leaderboard collection), the withdrawal and faucet-claim
settlement flows, the question content hash and ingestion pipeline, the
faucet rate limiter, and the random-questions endpoint.

Conventions:
* Monetary amounts and JSON numbers are modelled as `Int`.
* The MongoDB `Leaderboard` collection is an association list from the
  normalized (lowercased) wallet string to a `LedgerEntry`;
  `updateOne` + `$inc` {upsert: true} is `creditEntry`, `updateOne` + `$inc`
  without upsert is `debitEntry`.
* External chain calls (ethers `transfer` / faucet `claim`) are modelled by
  the value they come back with: `TransferResult.throws` for a call that
  throws or times out, `TransferResult.mined s` for a mined transaction with
  receipt status `s`.
* SHA-256 is modelled as an injective function, i.e. the content hash of a
  question is identified with the exact preimage string the server feeds to
  `crypto.createHash("sha256")`.  Hash equality therefore coincides with
  preimage equality; every collision exhibited below is a genuine collision
  of the server's hash inputs (hence of the real SHA-256 digests).
-/

/-- JS `String.prototype.toLowerCase()`, character-wise (the inputs in
this development are ASCII). Defined on the character list so that it
reduces inside the kernel. -/
def jsToLower (s : String) : String := ⟨s.data.map Char.toLower⟩

/-- JS `String.prototype.toUpperCase()`, character-wise. -/
def jsToUpper (s : String) : String := ⟨s.data.map Char.toUpper⟩

/-- JS `String.prototype.trim()`: strip whitespace from both ends. -/
def jsTrim (s : String) : String :=
  ⟨((s.data.dropWhile Char.isWhitespace).reverse.dropWhile
      Char.isWhitespace).reverse⟩

/-- One document of the `Leaderboard` collection: accumulated winnings and
games played for a wallet. -/
structure LedgerEntry where
  winnings : Int
  games : Nat
deriving DecidableEq

/-- The `Leaderboard` collection: wallet key (already lowercased on write)
to entry. -/
abbrev Ledger := List (String × LedgerEntry)

/-- `Leaderboard.findOne {wallet}`. -/
def ledgerFind : Ledger → String → Option LedgerEntry
  | [], _ => none
  | (k', e) :: rest, k => if k' = k then some e else ledgerFind rest k

/-- The winnings a wallet key currently holds (absent entry reads as 0). -/
def ledgerWinnings (l : Ledger) (k : String) : Int :=
  match ledgerFind l k with
  | none => 0
  | some e => e.winnings

/-- `Leaderboard.updateOne {wallet} {$inc: {winnings: win, games: 1}}
{upsert: true}`: increment the existing entry or create a fresh one. -/
def creditEntry : Ledger → String → Int → Ledger
  | [], k, win => [(k, ⟨win, 1⟩)]
  | (k', e) :: rest, k, win =>
    if k' = k then (k', ⟨e.winnings + win, e.games + 1⟩) :: rest
    else (k', e) :: creditEntry rest k win

/-- `Leaderboard.updateOne {wallet} {$inc: {winnings: -amount}}` (no
upsert): decrement the matching entry's winnings, no-op if absent. -/
def debitEntry : Ledger → String → Int → Ledger
  | [], _, _ => []
  | (k', e) :: rest, k, amount =>
    if k' = k then (k', ⟨e.winnings - amount, e.games⟩) :: rest
    else (k', e) :: debitEntry rest k amount

/-- The `POST /api/game/complete` handler: rejects an empty wallet, clamps
the payout at 0 (`Math.max(0, Number(payout || 0))`) and `$inc`-upserts the
lowercased wallet's entry. -/
def recordGameCompletion (l : Ledger) (wallet : String) (payout : Int) : Ledger :=
  if wallet = "" then l
  else creditEntry l (jsToLower wallet) (max 0 payout)

/-- Outcome of an external chain transaction as seen by the server:
the call throws (rejected, timed out, RPC down), or the transaction is
mined with a receipt status. -/
inductive TransferResult
  | throws
  | mined (status : Nat)
deriving DecidableEq

/-- The chain configuration of a withdrawal request: the localhost
simulated path (no `PRIVATE_KEY` configured), or the production path with
the game contract's token balance and the result of the
`tokenContract.transfer` call. -/
inductive ChainEnv
  | simulated
  | real (contractBalance : Int) (transfer : TransferResult)

/-- The HTTP-observable outcome of `POST /api/withdraw`. -/
inductive WithdrawOutcome
  | badRequest
  | invalidAddress
  | insufficientWinnings
  | insufficientContract
  | success (simulated : Bool)
  | serverError
deriving DecidableEq

/-- The `POST /api/withdraw` handler.  Guard order as in the source:
falsy wallet/amount, `ethers.isAddress`, the winnings check
(`!player || player.winnings < amount`), then either the simulated debit
or the production transfer.  In the production path the ledger is debited
only in the `receipt.status === 1` branch; a thrown call or a receipt with
another status reaches the catch, which reports an error and leaves the
ledger alone. -/
def withdraw (l : Ledger) (wallet : String) (isAddr : Bool) (amount : Int)
    (env : ChainEnv) : WithdrawOutcome × Ledger :=
  if wallet = "" ∨ amount = 0 then (.badRequest, l)
  else if ¬ isAddr then (.invalidAddress, l)
  else
    match ledgerFind l (jsToLower wallet) with
    | none => (.insufficientWinnings, l)
    | some player =>
      if player.winnings < amount then (.insufficientWinnings, l)
      else
        match env with
        | .simulated => (.success true, debitEntry l (jsToLower wallet) amount)
        | .real contractBalance t =>
          if contractBalance < amount then (.insufficientContract, l)
          else
            match t with
            | .throws => (.serverError, l)
            | .mined s =>
              if s = 1 then (.success false, debitEntry l (jsToLower wallet) amount)
              else (.serverError, l)

/-- The chain configuration of a faucet claim: the localhost simulated path
(no `PRIVATE_KEY`), or the production path with the on-chain cooldown in
seconds and the result of the `faucetContract.claim` call. -/
inductive FaucetEnv
  | simulated
  | real (cooldownSeconds : Nat) (claimTx : TransferResult)

/-- The HTTP-observable outcome of `POST /api/faucet/claim`.
`success simulated` means the handler responded `{success: true, txHash}`,
with `simulated = true` when the txHash was fabricated from random bytes
rather than a real transaction. -/
inductive FaucetOutcome
  | addressRequired
  | invalidAddress
  | cooldownActive
  | success (simulated : Bool)
deriving DecidableEq

/-- The `POST /api/faucet/claim` handler (after the rate limiter).  In the
production path, a thrown chain call lands in the catch block, which
responds `{success: true}` with a random 32-byte txHash — the same shape as
the genuine success response. -/
def claimFaucet (env : FaucetEnv) (hasAddress isAddr : Bool) : FaucetOutcome :=
  match env with
  | .simulated => .success true
  | .real cooldownSeconds t =>
    if ¬ hasAddress then .addressRequired
    else if ¬ isAddr then .invalidAddress
    else if cooldownSeconds > 0 then .cooldownActive
    else
      match t with
      | .throws => .success true
      | .mined _ => .success false

/-- Every entry of the ledger has non-negative winnings. -/
def NonnegLedger (l : Ledger) : Prop := ∀ p ∈ l, 0 ≤ p.2.winnings

-- ── Question ingestion (content hash, validation, upsert) ───────────

/-- One element of a raw question's `answers` array. -/
structure RawAnswer where
  id : String
  text : String
deriving DecidableEq

/-- A raw question record as posted to `/api/questions/upload` (after JSON
field extraction; the metadata fields are optional in the input). -/
structure RawQuestion where
  question : String
  answers : List RawAnswer
  correct : String
  difficulty : Option String
  category : Option String
  source : Option String
  tags : Option (List String)
deriving DecidableEq

/-- JS `v || d` for an optional string field: `undefined` and the empty
string are falsy. -/
def jsStrOr (v : Option String) (d : String) : String :=
  match v with
  | none => d
  | some s => if s = "" then d else s

/-- JS `q.tags || []`: only `undefined` is replaced (an empty array is
truthy). -/
def jsTagsOr (v : Option (List String)) : List String :=
  match v with
  | none => []
  | some t => t

/-- JS `Array.prototype.join("|")` over the answer texts. -/
def joinBar : List String → String
  | [] => ""
  | [t] => t
  | t :: rest => t ++ ("|" ++ joinBar rest)

/-- The exact string `questionHash` feeds to SHA-256:
`(q.question || "") + (q.answers || []).map(a => a.text || "").join("|") + (q.correct || "")`. -/
def hashInput (q : RawQuestion) : String :=
  q.question ++ joinBar (q.answers.map RawAnswer.text) ++ q.correct

/-- `questionHash`.  SHA-256 is modelled as injective, so the digest is
identified with its preimage `hashInput`; two questions collide on this
model exactly when the server hashes the same byte string for both. -/
def questionHash (q : RawQuestion) : String := hashInput q

/-- `validateQuestion`: non-blank question text, exactly 4 answers each
with a truthy (non-empty) id and text, and `correct` whose uppercase form
is one of the literal letters A/B/C/D. -/
def validateQuestion (q : RawQuestion) : Bool :=
  (0 < (jsTrim q.question).length) &&
  (q.answers.length == 4) &&
  q.answers.all (fun a => !(a.id == "") && !(a.text == "")) &&
  (["A", "B", "C", "D"].contains (jsToUpper q.correct))

/-- A stored question document (the `$set` payload of `upsertQuestion`). -/
structure StoredQuestion where
  question : String
  answers : List RawAnswer
  correct : String
  difficulty : String
  category : String
  source : String
  tags : List String
  hash : String
deriving DecidableEq

/-- The document `upsertQuestion` builds: trimmed question and answer
texts, uppercased ids and correct letter, defaulted metadata — and the
hash of the untrimmed raw record. -/
def mkDoc (q : RawQuestion) : StoredQuestion :=
  { question := (jsTrim q.question)
    answers := q.answers.map fun a => ⟨jsToUpper a.id, jsTrim a.text⟩
    correct := (jsToUpper q.correct)
    difficulty := jsStrOr q.difficulty "medium"
    category := jsStrOr q.category ""
    source := jsStrOr q.source ""
    tags := jsTagsOr q.tags
    hash := questionHash q }

/-- `updateOne {hash} {$set: doc}`: replace the first stored document with
the same hash. -/
def replaceByHash : List StoredQuestion → StoredQuestion → List StoredQuestion
  | [], _ => []
  | s :: rest, doc =>
    if s.hash = doc.hash then doc :: rest else s :: replaceByHash rest doc

/-- `upsertQuestion`: `updateOne({hash}, {$set: doc}, {upsert: true})` —
overwrite the document with this hash, or append a new one. -/
def upsertQuestion (store : List StoredQuestion) (q : RawQuestion) :
    List StoredQuestion :=
  let doc := mkDoc q
  if store.any (fun s => s.hash == doc.hash) then replaceByHash store doc
  else store ++ [doc]

/-- The counters reported by `/api/questions/upload`. -/
structure IngestCounts where
  inserted : Nat
  duplicates : Nat
  invalid : Nat
deriving DecidableEq

/-- One iteration of the upload loop: invalid records are counted and
skipped; a valid record whose hash is already stored (`Question.findOne
{hash}`) is counted as a duplicate and skipped (`continue` — the upsert is
not reached); otherwise the record is upserted and counted as inserted. -/
def ingestOne (acc : List StoredQuestion × IngestCounts) (q : RawQuestion) :
    List StoredQuestion × IngestCounts :=
  if !validateQuestion q then
    (acc.1, { acc.2 with invalid := acc.2.invalid + 1 })
  else if acc.1.any (fun s => s.hash == questionHash q) then
    (acc.1, { acc.2 with duplicates := acc.2.duplicates + 1 })
  else
    (upsertQuestion acc.1 q, { acc.2 with inserted := acc.2.inserted + 1 })

/-- The whole `/api/questions/upload` loop over a batch. -/
def ingestBatch (store : List StoredQuestion) (batch : List RawQuestion) :
    List StoredQuestion × IngestCounts :=
  batch.foldl ingestOne (store, ⟨0, 0, 0⟩)

-- ── Faucet rate limiter ─────────────────────────────────────────────

/-- Per-key state of the rate limiter: hit count and the millisecond
timestamp at which the current window expires. -/
structure RLEntry where
  count : Nat
  resetTime : Nat
deriving DecidableEq

/-- The rate limiter's store, keyed by identity (request origin). -/
abbrev LimiterState := List (String × RLEntry)

def rlFind : LimiterState → String → Option RLEntry
  | [], _ => none
  | (k', e) :: rest, k => if k' = k then some e else rlFind rest k

def rlSet : LimiterState → String → RLEntry → LimiterState
  | [], k, e => [(k, e)]
  | (k', e') :: rest, k, e =>
    if k' = k then (k, e) :: rest else (k', e') :: rlSet rest k e

/-- `windowMs: 4 * 60 * 60 * 1000` from the `faucetLimiter` configuration. -/
def rlWindowMs : Nat := 4 * 60 * 60 * 1000

/-- Modelled from the spec: the fixed-window counter itself lives in the
`express-rate-limit` dependency, not in this repository's sources — only
its configuration (`windowMs` 4 hours, `max: 1`) is in `server.js`.  Per
§4.5: at most 1 allowed acquisition per identity key per fixed 4-hour
window, the window anchored at the prior successful acquisition.  A
request under an unexpired window increments the counter and is allowed
only if the count stays within `max = 1`; a request after expiry starts a
fresh window with count 1. -/
def tryAcquire (s : LimiterState) (key : String) (now : Nat) :
    Bool × LimiterState :=
  match rlFind s key with
  | none => (true, rlSet s key ⟨1, now + rlWindowMs⟩)
  | some e =>
    if e.resetTime ≤ now then (true, rlSet s key ⟨1, now + rlWindowMs⟩)
    else (e.count + 1 ≤ 1, rlSet s key ⟨e.count + 1, e.resetTime⟩)

/-- Reachable limiter states: every stored window has been hit at least
once. -/
def RLCounts (s : LimiterState) : Prop := ∀ p ∈ s, 1 ≤ p.2.count

-- ── Random questions endpoint ───────────────────────────────────────

/-- JS `parseInt(s)` restricted to decimal inputs: skip surrounding
whitespace, take an optional sign and the longest leading digit run;
`none` models the `NaN` result when no digits lead the string.  (The
hexadecimal `0x` form of `parseInt` is not modelled; no claim exercises
it.) -/
def jsParseInt (s : String) : Option Int :=
  let chars := (jsTrim s).data
  match chars with
  | '-' :: rest =>
    let d := rest.takeWhile Char.isDigit
    if d.isEmpty then none
    else some (-(d.foldl (fun n c => n * 10 + (c.toNat - 48)) 0 : Nat))
  | '+' :: rest =>
    let d := rest.takeWhile Char.isDigit
    if d.isEmpty then none
    else some ((d.foldl (fun n c => n * 10 + (c.toNat - 48)) 0 : Nat))
  | _ =>
    let d := chars.takeWhile Char.isDigit
    if d.isEmpty then none
    else some ((d.foldl (fun n c => n * 10 + (c.toNat - 48)) 0 : Nat))

/-- `Math.min(50, Math.max(1, parseInt(req.query.count || "15")))`:
`none` (the parameter is absent or an empty string) defaults the text to
"15"; a `NaN` parse propagates through `Math.max`/`Math.min` to a `NaN`
count, modelled as `none`. -/
def clampCount (param : Option String) : Option Int :=
  (jsParseInt (jsStrOr param "15")).map fun n => min 50 (max 1 n)

/-- The shape of one question in a `/api/questions/random` response. -/
structure FormattedQuestion where
  question : String
  answers : List RawAnswer
  correct : String
deriving DecidableEq

/-- One fabricated placeholder question (`Sample question i+1`). -/
def mockQuestion (i : Nat) : FormattedQuestion :=
  { question := "Sample question " ++ toString (i + 1)
    answers := [⟨"A", "Answer A"⟩, ⟨"B", "Answer B"⟩, ⟨"C", "Answer C"⟩,
                ⟨"D", "Answer D"⟩]
    correct := "A" }

/-- The `GET /api/questions/random` handler of `server.js`.  With a `NaN`
count (`none`) the handler cannot take the mock branch (`total < NaN` is
false) and hands `NaN` to the `$sample` aggregation — outside this model,
so `none`.  Otherwise: fewer stored questions than the clamped count
fabricates that many placeholders; else `$sample` returns exactly `count`
stored documents, modelled deterministically as the first `count` (only
the returned fields and the response length are claimed, never which
documents the sample picks). -/
def randomQuestions (store : List StoredQuestion) (param : Option String) :
    Option (List FormattedQuestion) :=
  match clampCount param with
  | none => none
  | some c =>
    if store.length < c.toNat then
      some ((List.range c.toNat).map mockQuestion)
    else
      some ((store.take c.toNat).map fun s =>
        ⟨s.question, s.answers, s.correct⟩)

-- ── Supabase variant (unnamed source file, Monallion Supabase Edition) ──

/-- `Leaderboard` write of the Supabase variant's `/api/game/complete`:
`upsert {wallet, winnings: win, games: 1}` on conflict of `wallet` — a
plain overwrite, not an increment. -/
def setEntry : Ledger → String → LedgerEntry → Ledger
  | [], k, e => [(k, e)]
  | (k', e') :: rest, k, e =>
    if k' = k then (k, e) :: rest else (k', e') :: setEntry rest k e

/-- The Supabase variant's `POST /api/game/complete`: same wallet
normalization and payout clamping as `server.js`, but the row is
overwritten rather than incremented. -/
def recordGameCompletionSupabase (l : Ledger) (wallet : String)
    (payout : Int) : Ledger :=
  if wallet = "" then l
  else setEntry l (jsToLower wallet) ⟨max 0 payout, 1⟩

-- ── Concrete records used in counterexamples and witnesses ──────────

/-- A valid record whose metadata marks it "easy". -/
def qEasy : RawQuestion :=
  ⟨"Q", [⟨"A", "a"⟩, ⟨"B", "b"⟩, ⟨"C", "c"⟩, ⟨"D", "d"⟩], "A",
    some "easy", none, none, none⟩

/-- The same content as `qEasy` with metadata "hard". -/
def qHard : RawQuestion :=
  ⟨"Q", [⟨"A", "a"⟩, ⟨"B", "b"⟩, ⟨"C", "c"⟩, ⟨"D", "d"⟩], "A",
    some "hard", none, none, none⟩

/-- Answer texts `a|b, c, d, e`: the hash input is `Qa|b|c|d|eA`. -/
def qPipeA : RawQuestion :=
  ⟨"Q", [⟨"A", "a|b"⟩, ⟨"B", "c"⟩, ⟨"C", "d"⟩, ⟨"D", "e"⟩], "A",
    none, none, none, none⟩

/-- Answer texts `a, b|c, d, e`: the hash input is also `Qa|b|c|d|eA`. -/
def qPipeB : RawQuestion :=
  ⟨"Q", [⟨"A", "a"⟩, ⟨"B", "b|c"⟩, ⟨"C", "d"⟩, ⟨"D", "e"⟩], "A",
    none, none, none, none⟩

/-- A record whose answer ids are the digits 1–4 while `correct` is "A". -/
def qDigits : RawQuestion :=
  ⟨"Q", [⟨"1", "w"⟩, ⟨"2", "x"⟩, ⟨"3", "y"⟩, ⟨"4", "z"⟩], "A",
    none, none, none, none⟩

/-- A record with a blank answer text (used as an invalid example). -/
def qBlankAnswer : RawQuestion :=
  ⟨"Q", [⟨"A", ""⟩, ⟨"B", "b"⟩, ⟨"C", "c"⟩, ⟨"D", "d"⟩], "A",
    none, none, none, none⟩

/-- Two records differing only in the `correct` letter. -/
def qCorrectA : RawQuestion :=
  ⟨"Q2", [⟨"A", "w"⟩, ⟨"B", "x"⟩, ⟨"C", "y"⟩, ⟨"D", "z"⟩], "A",
    none, none, none, none⟩

def qCorrectB : RawQuestion :=
  ⟨"Q2", [⟨"A", "w"⟩, ⟨"B", "x"⟩, ⟨"C", "y"⟩, ⟨"D", "z"⟩], "B",
    none, none, none, none⟩

-- ── Claim-side validity predicates (stated from the claim's words) ──

/-- The invalidity condition exactly as claim C7 states it: blank
question, answer count ≠ 4, an answer missing its id or a non-empty text,
or `correct` not matching one of the record's own four answer ids
case-insensitively. -/
def claimInvalidC7 (q : RawQuestion) : Bool :=
  ((jsTrim q.question).length == 0) ||
  (q.answers.length != 4) ||
  q.answers.any (fun a => (a.id == "") || (a.text == "")) ||
  !(q.answers.any fun a => jsToUpper a.id == jsToUpper q.correct)

/-- The amended invalidity condition: as claim C7 but with `correct`
checked (case-insensitively) against the literal letters A/B/C/D rather
than against the record's own answer ids. -/
def claimInvalidAmended (q : RawQuestion) : Bool :=
  ((jsTrim q.question).length == 0) ||
  (q.answers.length != 4) ||
  q.answers.any (fun a => (a.id == "") || (a.text == "")) ||
  !(["A", "B", "C", "D"].contains (jsToUpper q.correct))

-- ── Basic ledger lemmas ──────────────────────────────────────────────

theorem ledgerFind_debitEntry (l : Ledger) (k : String) (a : Int) :
    ledgerFind (debitEntry l k a) k
      = (ledgerFind l k).map (fun e => ⟨e.winnings - a, e.games⟩) := by
  induction l with
  | nil => rfl
  | cons p rest ih =>
    obtain ⟨k', e⟩ := p
    by_cases h : k' = k <;> simp [debitEntry, ledgerFind, h, ih]

theorem nonneg_creditEntry (l : Ledger) (k : String) (win : Int)
    (hw : 0 ≤ win) (h : NonnegLedger l) : NonnegLedger (creditEntry l k win) := by
  induction l with
  | nil =>
    intro p hp
    simp only [creditEntry, List.mem_singleton] at hp
    subst hp; simpa using hw
  | cons q rest ih =>
    obtain ⟨k', e⟩ := q
    have he : 0 ≤ e.winnings := h (k', e) (List.mem_cons_self _ _)
    have hrest : NonnegLedger rest := fun p hp => h p (List.mem_cons_of_mem _ hp)
    intro p hp
    simp only [creditEntry] at hp
    by_cases hk : k' = k
    · rw [if_pos hk] at hp
      rcases List.mem_cons.mp hp with h1 | h1
      · rw [h1]; simpa using add_nonneg he hw
      · exact hrest p h1
    · rw [if_neg hk] at hp
      rcases List.mem_cons.mp hp with h1 | h1
      · rw [h1]; exact he
      · exact ih hrest p h1

theorem nonneg_debitEntry (l : Ledger) (k : String) (a : Int) (e : LedgerEntry)
    (h : NonnegLedger l) (hf : ledgerFind l k = some e) (ha : a ≤ e.winnings) :
    NonnegLedger (debitEntry l k a) := by
  induction l with
  | nil => exact fun p hp => absurd hp (by simp [debitEntry])
  | cons q rest ih =>
    obtain ⟨k', e'⟩ := q
    have he' : 0 ≤ e'.winnings := h (k', e') (List.mem_cons_self _ _)
    have hrest : NonnegLedger rest := fun p hp => h p (List.mem_cons_of_mem _ hp)
    intro p hp
    simp only [debitEntry] at hp
    by_cases hk : k' = k
    · simp only [ledgerFind, if_pos hk] at hf
      obtain rfl : e' = e := Option.some.inj hf
      rw [if_pos hk] at hp
      rcases List.mem_cons.mp hp with h1 | h1
      · rw [h1]; simpa using sub_nonneg.mpr ha
      · exact hrest p h1
    · simp only [ledgerFind, if_neg hk] at hf
      rw [if_neg hk] at hp
      rcases List.mem_cons.mp hp with h1 | h1
      · rw [h1]; exact he'
      · exact ih hrest hf p h1

-- ── Settlement and ledger claims ────────────────────────────────────

/-- Claim C1: in the production withdrawal path, the ledger debit of the
participant's winnings happens only after the on-chain transfer is
confirmed with receipt status 1 — a transfer call that throws or times
out, or a receipt with any other status, leaves the ledger exactly as it
was before the call. -/
theorem withdraw_no_debit_without_confirmation (l : Ledger) (wallet : String)
    (isAddr : Bool) (amount : Int) (cb : Int) (t : TransferResult)
    (h : t ≠ TransferResult.mined 1) :
    (withdraw l wallet isAddr amount (ChainEnv.real cb t)).2 = l := by
  unfold withdraw
  split
  · rfl
  · split
    · rfl
    · cases hf : ledgerFind l (jsToLower wallet) with
      | none => rfl
      | some player =>
        simp only
        split
        · rfl
        · split
          · rfl
          · cases t with
            | throws => rfl
            | mined s =>
              simp only
              split
              · exact absurd (by simp_all) h
              · rfl

theorem withdraw_no_debit_without_confirmation_witness :
    (withdraw [("0xabc", ⟨150, 2⟩)] "0xabc" true 100
      (ChainEnv.real 1000 TransferResult.throws)).2 = [("0xabc", ⟨150, 2⟩)] :=
  withdraw_no_debit_without_confirmation _ _ _ _ _ _ (by decide)

/-- Claim C2: a withdrawal request for more than the participant's current
winnings (an absent entry reading as 0) is rejected with the
insufficient-winnings error independently of the chain environment, i.e.
before any external call, with the ledger unchanged; and every
game-completion credit and every withdrawal keeps all winnings
non-negative. -/
theorem ledger_never_negative :
    (∀ (l : Ledger) (wallet : String) (amount : Int) (env : ChainEnv),
      wallet ≠ "" → 0 ≤ ledgerWinnings l (jsToLower wallet) →
      ledgerWinnings l (jsToLower wallet) < amount →
      withdraw l wallet true amount env = (.insufficientWinnings, l)) ∧
    (∀ (l : Ledger), NonnegLedger l →
      (∀ (wallet : String) (payout : Int),
        NonnegLedger (recordGameCompletion l wallet payout)) ∧
      (∀ (wallet : String) (isAddr : Bool) (amount : Int) (env : ChainEnv),
        NonnegLedger (withdraw l wallet isAddr amount env).2)) := by
  constructor
  · intro l wallet amount env hw hnn hlt
    have hne : ¬(wallet = "" ∨ amount = 0) := by
      rintro (h | h)
      · exact hw h
      · subst h; omega
    unfold withdraw
    rw [if_neg hne, if_neg (by simp)]
    split
    · rfl
    · rename_i player hf
      have hplt : player.winnings < amount := by
        unfold ledgerWinnings at hlt; rw [hf] at hlt; exact hlt
      rw [if_pos hplt]
  · intro l hl
    constructor
    · intro wallet payout
      unfold recordGameCompletion
      split
      · exact hl
      · exact nonneg_creditEntry _ _ _ (le_max_left 0 payout) hl
    · intro wallet isAddr amount env
      unfold withdraw
      split
      · exact hl
      · split
        · exact hl
        · split
          · exact hl
          · rename_i player hf
            split
            · exact hl
            · rename_i hge
              split
              · exact nonneg_debitEntry _ _ _ _ hl hf (by omega)
              · split
                · exact hl
                · split
                  · exact hl
                  · rename_i s
                    split
                    · exact nonneg_debitEntry _ _ _ _ hl hf (by omega)
                    · exact hl

theorem ledger_never_negative_witness :
    withdraw [("0xabc", ⟨150, 2⟩)] "0xabc" true 9999 ChainEnv.simulated
      = (.insufficientWinnings, [("0xabc", ⟨150, 2⟩)]) :=
  ledger_never_negative.1 _ "0xabc" 9999 _ (by decide) (by decide) (by decide)

/-- Claim C4 (code bug, faucet side): when the faucet-claim chain call
throws — the external operation fails — the handler's catch block still
replies with a success response carrying a fabricated transaction hash,
instead of surfacing a settlement error. -/
theorem faucet_chain_failure_reports_success :
    claimFaucet (FaucetEnv.real 0 TransferResult.throws) true true
      = FaucetOutcome.success true := rfl

/-- Claim C6: starting from an empty ledger, completing a game as
"0xABC" for 100 and then as "0xabc" for 50 leaves a single entry keyed by
the lowercased identity "0xabc" with winnings 150 and 2 games played. -/
theorem game_completion_normalizes_and_accumulates :
    recordGameCompletion (recordGameCompletion [] "0xABC" 100) "0xabc" 50
      = [("0xabc", ⟨150, 2⟩)] := by decide

/-- The Supabase variant of the same endpoint overwrites the row instead
of incrementing it: the same two calls leave winnings 50 and 1 game. -/
theorem supabase_game_completion_overwrites :
    recordGameCompletionSupabase
      (recordGameCompletionSupabase [] "0xABC" 100) "0xabc" 50
      = [("0xabc", ⟨50, 1⟩)] := by decide

/-- Claim C9: the withdrawal handler never checks that the requested
amount is positive.  For an existing entry with non-negative winnings and
any negative amount, the insufficient-winnings comparison passes, the
simulated-transfer path accepts the request, and the `$inc` by `-amount`
increases the participant's winnings by `|amount|`. -/
theorem withdraw_negative_amount_credits (l : Ledger) (wallet : String)
    (e : LedgerEntry) (a : Int) (hw : wallet ≠ "")
    (hf : ledgerFind l (jsToLower wallet) = some e) (hnn : 0 ≤ e.winnings)
    (ha : a < 0) :
    ¬(e.winnings < a) ∧
    (withdraw l wallet true a ChainEnv.simulated).1
      = WithdrawOutcome.success true ∧
    ledgerFind (withdraw l wallet true a ChainEnv.simulated).2 (jsToLower wallet)
      = some ⟨e.winnings + |a|, e.games⟩ := by
  have hlt : ¬(e.winnings < a) := by omega
  have hne : ¬(wallet = "" ∨ a = 0) := by
    rintro (h | h)
    · exact hw h
    · omega
  refine ⟨hlt, ?_⟩
  unfold withdraw
  rw [if_neg hne, if_neg (by simp), hf]
  simp only
  rw [if_neg hlt]
  refine ⟨rfl, ?_⟩
  rw [ledgerFind_debitEntry, hf]
  simp only [Option.map_some']
  have : e.winnings - a = e.winnings + |a| := by
    rw [abs_of_neg ha]; ring
  rw [this]

theorem withdraw_negative_amount_credits_witness :
    ¬((150 : Int) < -5) ∧
    (withdraw [("0xabc", ⟨150, 2⟩)] "0xabc" true (-5) ChainEnv.simulated).1
      = WithdrawOutcome.success true ∧
    ledgerFind
      (withdraw [("0xabc", ⟨150, 2⟩)] "0xabc" true (-5) ChainEnv.simulated).2
      (jsToLower "0xabc") = some ⟨150 + |(-5 : Int)|, 2⟩ :=
  withdraw_negative_amount_credits [("0xabc", ⟨150, 2⟩)] "0xabc" ⟨150, 2⟩ (-5)
    (by decide) (by decide) (by decide) (by decide)

-- ── String cancellation helpers ─────────────────────────────────────

theorem strCancelLeft (p a b : String) (h : p ++ a = p ++ b) : a = b := by
  have hd := congrArg String.data h
  simp only [String.data_append] at hd
  have h2 : a.data = b.data := List.append_cancel_left hd
  cases a; cases b; exact congrArg String.mk h2

theorem strCancelRight (a b s : String) (h : a ++ s = b ++ s) : a = b := by
  have hd := congrArg String.data h
  simp only [String.data_append] at hd
  have h2 : a.data = b.data := List.append_cancel_right hd
  cases a; cases b; exact congrArg String.mk h2

-- ── Ingestion claims ────────────────────────────────────────────────

/-- Claim C3 (counterexample): re-ingesting `qHard` — content-identical
to the stored `qEasy` but with difficulty "hard" — is counted as a
duplicate yet its write is skipped entirely: the store keeps the old
document with difficulty "easy", so the metadata is not overwritten. -/
theorem duplicate_ingestion_skips_upsert :
    ingestBatch [mkDoc qEasy] [qHard] = ([mkDoc qEasy], ⟨0, 1, 0⟩) ∧
    questionHash qHard = questionHash qEasy ∧
    (mkDoc qEasy).difficulty = "easy" ∧
    (mkDoc qHard).difficulty = "hard" := by decide

/-- Claim C3 (amended): a valid record whose content hash is already in
the store is counted as a duplicate and skipped — the loop `continue`s
before reaching `upsertQuestion`, leaving the store (and hence the stored
metadata) unchanged. -/
theorem duplicate_counted_and_skipped (store : List StoredQuestion)
    (counts : IngestCounts) (q : RawQuestion)
    (hv : validateQuestion q = true)
    (hd : store.any (fun s => s.hash == questionHash q) = true) :
    ingestOne (store, counts) q
      = (store, { counts with duplicates := counts.duplicates + 1 }) := by
  simp [ingestOne, hv, hd]

theorem duplicate_counted_and_skipped_witness :
    ingestOne ([mkDoc qEasy], ⟨0, 0, 0⟩) qHard
      = ([mkDoc qEasy], ⟨0, 1, 0⟩) :=
  duplicate_counted_and_skipped [mkDoc qEasy] ⟨0, 0, 0⟩ qHard
    (by decide) (by decide)

-- ── Content hash claims ─────────────────────────────────────────────

/-- Claim C5 (counterexample): `qPipeA` and `qPipeB` are valid records
with the same question and correct letter but different answer texts —
yet their hash inputs are both the string `Qa|b|c|d|eA`, because a `|`
inside an answer text shifts the join boundaries.  Two records differing
in an answer text can therefore share a content hash. -/
theorem questionHash_answer_text_collision :
    validateQuestion qPipeA = true ∧ validateQuestion qPipeB = true ∧
    qPipeA.answers.map RawAnswer.text ≠ qPipeB.answers.map RawAnswer.text ∧
    questionHash qPipeA = questionHash qPipeB := by decide

/-- Claim C5 (amended): the content hash depends on nothing but the
question text, the ordered answer texts and the correct letter — so
records differing only in category, tags, difficulty or source hash
identically; and when exactly one of those three hash fields differs
(the correct letter, the question text, or a single answer text, all
other hash fields equal), the hashes differ.  Simultaneous differences in
several answer texts (or question and answer texts) can cancel via a `|`
boundary shift, as `questionHash_answer_text_collision` shows. -/
theorem questionHash_content_identity :
    (∀ q1 q2 : RawQuestion, q1.question = q2.question →
      q1.answers.map RawAnswer.text = q2.answers.map RawAnswer.text →
      q1.correct = q2.correct → questionHash q1 = questionHash q2) ∧
    (∀ q1 q2 : RawQuestion, q1.question = q2.question →
      q1.answers.map RawAnswer.text = q2.answers.map RawAnswer.text →
      q1.correct ≠ q2.correct → questionHash q1 ≠ questionHash q2) ∧
    (∀ q1 q2 : RawQuestion, q1.question ≠ q2.question →
      q1.answers.map RawAnswer.text = q2.answers.map RawAnswer.text →
      q1.correct = q2.correct → questionHash q1 ≠ questionHash q2) ∧
    (∀ (q1 q2 : RawQuestion) (t1 t2 t3 t4 u1 u2 u3 u4 : String),
      q1.question = q2.question → q1.correct = q2.correct →
      q1.answers.map RawAnswer.text = [t1, t2, t3, t4] →
      q2.answers.map RawAnswer.text = [u1, u2, u3, u4] →
      ((t1 ≠ u1 ∧ t2 = u2 ∧ t3 = u3 ∧ t4 = u4) ∨
       (t1 = u1 ∧ t2 ≠ u2 ∧ t3 = u3 ∧ t4 = u4) ∨
       (t1 = u1 ∧ t2 = u2 ∧ t3 ≠ u3 ∧ t4 = u4) ∨
       (t1 = u1 ∧ t2 = u2 ∧ t3 = u3 ∧ t4 ≠ u4)) →
      questionHash q1 ≠ questionHash q2) := by
  refine ⟨?_, ?_, ?_, ?_⟩
  · intro q1 q2 hq ha hc
    unfold questionHash hashInput
    rw [hq, ha, hc]
  · intro q1 q2 hq ha hc h
    unfold questionHash hashInput at h
    rw [hq, ha] at h
    exact hc (strCancelLeft _ _ _ h)
  · intro q1 q2 hq ha hc h
    unfold questionHash hashInput at h
    rw [ha, hc] at h
    exact hq (strCancelRight _ _ _ (strCancelRight _ _ _ h))
  · intro q1 q2 t1 t2 t3 t4 u1 u2 u3 u4 hq hc ht hu hdiff h
    unfold questionHash hashInput at h
    rw [hq, hc, ht, hu] at h
    simp only [joinBar] at h
    have hJ := strCancelLeft _ _ _ (strCancelRight _ _ _ h)
    rcases hdiff with ⟨h1, h2, h3, h4⟩ | ⟨h1, h2, h3, h4⟩ |
      ⟨h1, h2, h3, h4⟩ | ⟨h1, h2, h3, h4⟩
    · rw [h2, h3, h4] at hJ
      exact h1 (strCancelRight _ _ _ hJ)
    · rw [h1, h3, h4] at hJ
      have := strCancelLeft _ _ _ (strCancelLeft _ _ _ hJ)
      exact h2 (strCancelRight _ _ _ this)
    · rw [h1, h2, h4] at hJ
      have := strCancelLeft _ _ _ (strCancelLeft _ _ _
        (strCancelLeft _ _ _ (strCancelLeft _ _ _ hJ)))
      exact h3 (strCancelRight _ _ _ this)
    · rw [h1, h2, h3] at hJ
      have := strCancelLeft _ _ _ (strCancelLeft _ _ _
        (strCancelLeft _ _ _ (strCancelLeft _ _ _
          (strCancelLeft _ _ _ (strCancelLeft _ _ _ hJ)))))
      exact h4 this

theorem questionHash_content_identity_witness :
    questionHash qEasy = questionHash qHard ∧
    questionHash qCorrectA ≠ questionHash qCorrectB :=
  ⟨questionHash_content_identity.1 qEasy qHard rfl rfl rfl,
   questionHash_content_identity.2.1 qCorrectA qCorrectB rfl rfl (by decide)⟩

-- ── Validation claims ───────────────────────────────────────────────

theorem boolPosNe (n : Nat) : decide (0 < n) = !(n == 0) := by
  cases n <;> simp

theorem allNotAny (l : List RawAnswer) :
    (l.all fun a => !(a.id == "") && !(a.text == "")) =
      !(l.any fun a => (a.id == "") || (a.text == "")) := by
  induction l with
  | nil => rfl
  | cons x xs ih => simp [List.all_cons, List.any_cons, Bool.not_or, ih]

theorem ingest_counts_sum (batch : List RawQuestion) (store : List StoredQuestion)
    (counts : IngestCounts) :
    (batch.foldl ingestOne (store, counts)).2.inserted
        + (batch.foldl ingestOne (store, counts)).2.duplicates
        + (batch.foldl ingestOne (store, counts)).2.invalid
      = counts.inserted + counts.duplicates + counts.invalid + batch.length := by
  induction batch generalizing store counts with
  | nil => simp
  | cons q rest ih =>
    rw [List.foldl_cons]
    cases hv : validateQuestion q with
    | false =>
      have hstep : ingestOne (store, counts) q
          = (store, { counts with invalid := counts.invalid + 1 }) := by
        simp [ingestOne, hv]
      rw [hstep, ih]; simp [List.length_cons]; omega
    | true =>
      cases hd : store.any (fun s => s.hash == questionHash q) with
      | true =>
        have hstep : ingestOne (store, counts) q
            = (store, { counts with duplicates := counts.duplicates + 1 }) := by
          simp [ingestOne, hv, hd]
        rw [hstep, ih]; simp [List.length_cons]; omega
      | false =>
        have hstep : ingestOne (store, counts) q
            = (upsertQuestion store q,
                { counts with inserted := counts.inserted + 1 }) := by
          simp [ingestOne, hv, hd]
        rw [hstep, ih]; simp [List.length_cons]; omega

/-- Claim C7 (counterexample): `qDigits` has answer ids 1–4 and correct
letter "A".  The claim's condition marks it invalid (its correct field
matches none of the record's answer ids), but `validateQuestion` accepts
it — the code checks `correct` against the literal letters A/B/C/D, not
against the record's ids — and the batch loop inserts it rather than
counting it invalid. -/
theorem validity_vs_record_ids_counterexample :
    claimInvalidC7 qDigits = true ∧
    validateQuestion qDigits = true ∧
    ingestBatch [] [qDigits] = ([mkDoc qDigits], ⟨1, 0, 0⟩) := by decide

/-- Claim C7 (amended): a record is rejected by `validateQuestion`
exactly when its question text is empty or whitespace-only, its answer
set size is not 4, an answer is missing an id or a non-empty text, or the
uppercase of its `correct` field is not one of the literal letters
A/B/C/D; invalid records are counted and skipped with the store
untouched; and every record of a batch is processed — the three counters
always sum to the batch length, so an invalid record never aborts the
rest of the batch. -/
theorem validation_characterization :
    (∀ q : RawQuestion, validateQuestion q = !(claimInvalidAmended q)) ∧
    (∀ (store : List StoredQuestion) (counts : IngestCounts) (q : RawQuestion),
      validateQuestion q = false →
      ingestOne (store, counts) q
        = (store, { counts with invalid := counts.invalid + 1 })) ∧
    (∀ (store : List StoredQuestion) (batch : List RawQuestion),
      (ingestBatch store batch).2.inserted + (ingestBatch store batch).2.duplicates
        + (ingestBatch store batch).2.invalid = batch.length) := by
  refine ⟨?_, ?_, ?_⟩
  · intro q
    unfold validateQuestion claimInvalidAmended
    simp only [Bool.not_or, Bool.not_not, boolPosNe, allNotAny, bne,
      Bool.not_not]
  · intro store counts q hv
    simp [ingestOne, hv]
  · intro store batch
    have h := ingest_counts_sum batch store ⟨0, 0, 0⟩
    simpa [ingestBatch] using h

theorem validation_characterization_witness :
    ingestOne (([] : List StoredQuestion), (⟨0, 0, 0⟩ : IngestCounts))
        qBlankAnswer
      = ([], { inserted := 0, duplicates := 0, invalid := 1 }) :=
  validation_characterization.2.1 [] ⟨0, 0, 0⟩ qBlankAnswer (by decide)

-- ── Rate limiter claims ─────────────────────────────────────────────

theorem rlFind_rlSet (s : LimiterState) (k : String) (e : RLEntry) :
    rlFind (rlSet s k e) k = some e := by
  induction s with
  | nil => simp [rlSet, rlFind]
  | cons p rest ih =>
    obtain ⟨k', e'⟩ := p
    by_cases h : k' = k <;> simp [rlSet, rlFind, h, ih]

theorem rlFind_mem (s : LimiterState) (k : String) (e : RLEntry)
    (h : rlFind s k = some e) : (k, e) ∈ s := by
  induction s with
  | nil => simp [rlFind] at h
  | cons p rest ih =>
    obtain ⟨k', e'⟩ := p
    by_cases hk : k' = k
    · simp only [rlFind, if_pos hk] at h
      obtain rfl : e' = e := Option.some.inj h
      subst hk
      exact List.mem_cons_self _ _
    · simp only [rlFind, if_neg hk] at h
      exact List.mem_cons_of_mem _ (ih h)

/-- Claim C8: after a successful acquisition at time `T`, the same
identity is denied at `T + 3h59m` and, after that denied attempt, allowed
again at `T + 4h01m` — at most one acquisition per fixed 4-hour window
anchored at the prior successful acquisition.  (The limiter itself is
modelled from the spec, see `tryAcquire`; `RLCounts` states that every
stored window has been hit at least once, which every state reachable
from the empty store satisfies.) -/
theorem rate_limiter_fixed_window (s : LimiterState) (key : String) (T : Nat)
    (hwf : RLCounts s) (h : (tryAcquire s key T).1 = true) :
    (tryAcquire (tryAcquire s key T).2 key (T + 14340000)).1 = false ∧
    (tryAcquire (tryAcquire (tryAcquire s key T).2 key (T + 14340000)).2 key
      (T + 14460000)).1 = true := by
  have hwin : rlWindowMs = 14400000 := rfl
  have hs1 : (tryAcquire s key T).2 = rlSet s key ⟨1, T + rlWindowMs⟩ := by
    unfold tryAcquire
    cases hf : rlFind s key with
    | none => rfl
    | some e =>
      simp only
      by_cases hr : e.resetTime ≤ T
      · rw [if_pos hr]
      · exfalso
        have hc : 1 ≤ e.count := hwf (key, e) (rlFind_mem s key e hf)
        unfold tryAcquire at h
        simp only [hf] at h
        rw [if_neg hr] at h
        simp only [decide_eq_true_eq] at h
        omega
  have hf1 : rlFind (rlSet s key ⟨1, T + rlWindowMs⟩) key
      = some ⟨1, T + rlWindowMs⟩ := rlFind_rlSet s key _
  have h2 : tryAcquire (rlSet s key ⟨1, T + rlWindowMs⟩) key (T + 14340000)
      = (false, rlSet (rlSet s key ⟨1, T + rlWindowMs⟩) key
          ⟨2, T + rlWindowMs⟩) := by
    unfold tryAcquire
    simp only [hf1]
    rw [if_neg (by rw [hwin]; omega)]
    simp
  have hf2 : rlFind (rlSet (rlSet s key ⟨1, T + rlWindowMs⟩) key
      ⟨2, T + rlWindowMs⟩) key = some ⟨2, T + rlWindowMs⟩ :=
    rlFind_rlSet _ key _
  have h3 : (tryAcquire (rlSet (rlSet s key ⟨1, T + rlWindowMs⟩) key
      ⟨2, T + rlWindowMs⟩) key (T + 14460000)).1 = true := by
    unfold tryAcquire
    simp only [hf2]
    rw [if_pos (by rw [hwin]; omega)]
  constructor
  · rw [hs1, h2]
  · rw [hs1, h2]
    exact h3

theorem rate_limiter_fixed_window_witness :
    (tryAcquire (tryAcquire [] "ip" 0).2 "ip" 14340000).1 = false ∧
    (tryAcquire (tryAcquire (tryAcquire [] "ip" 0).2 "ip" 14340000).2 "ip"
      14460000).1 = true := by
  have h := rate_limiter_fixed_window [] "ip" 0
    (by intro p hp; simp at hp) (by decide)
  simpa using h

-- ── Random questions claims ─────────────────────────────────────────

/-- Claim C10 (counterexample): a present but unparsable count parameter
is not defaulted to 15 — `parseInt("abc")` is NaN and the clamp
propagates it, so no clamped count exists and the handler cannot take the
clamped-response path (it falls into the database error path instead). -/
theorem random_count_nan_counterexample :
    clampCount (some "abc") = none ∧ clampCount (some "abc") ≠ some 15 ∧
    randomQuestions [] (some "abc") = none := by decide

/-- Claim C10 (amended): an absent count parameter defaults to 15; every
parsable count is clamped into [1, 50]; and for any clamped count the
response holds exactly that many questions — when the store has fewer,
fabricated placeholder questions are returned instead of fewer. -/
theorem random_questions_clamped_count :
    clampCount none = some 15 ∧
    (∀ (p : Option String) (c : Int) (store : List StoredQuestion),
      clampCount p = some c →
      (1 ≤ c ∧ c ≤ 50) ∧
      ∃ qs, randomQuestions store p = some qs ∧ qs.length = c.toNat) := by
  constructor
  · decide
  · intro p c store hc
    obtain ⟨n, hn, hcn⟩ := Option.map_eq_some'.mp hc
    constructor
    · rw [← hcn]
      exact ⟨le_min (by norm_num) (le_max_left 1 n), min_le_left _ _⟩
    · unfold randomQuestions
      simp only [hc]
      by_cases hlen : store.length < c.toNat
      · rw [if_pos hlen]
        exact ⟨_, rfl, by simp⟩
      · rw [if_neg hlen]
        refine ⟨_, rfl, ?_⟩
        simp only [List.length_map, List.length_take]
        omega

theorem random_questions_clamped_count_witness :
    ((1 : Int) ≤ 3 ∧ (3 : Int) ≤ 50) ∧
    ∃ qs, randomQuestions [] (some "3") = some qs ∧ qs.length = (3 : Int).toNat :=
  random_questions_clamped_count.2 (some "3") 3 [] (by decide)
